import Mathlib

/-!
Verification of the encryption core of spv-wallet-web-backend
(`encryption/encrypt.go`): key derivation, AES-GCM envelope
encryption/decryption and the content hash.

Go strings are modelled as lists of byte values (`List Nat`, each < 256
where it matters).  The plumbing of the Go code — splitting on `-`,
hex encoding/decoding, structural validation, error propagation — is
embedded concretely.  The cryptographic library primitives that the code
calls (`pbkdf2.Key`, `sha256`, AES-GCM `Seal`/`Open`) are external library
code, so they are modelled as an abstract structure of functions; the
contracts those libraries document (output lengths, seal/open inversion,
rejection of too-short ciphertexts) appear as explicit hypotheses, and a
concrete executable instance witnesses their satisfiability.
-/

/-- Byte strings: the model of Go `string` / `[]byte` values. -/
abbrev GoStr := List Nat

/-- Errors that the Go code can surface: an `aes.KeySizeError`, the
`cipher.NewGCM` block-size error, or a platform randomness failure from
`crypto/rand.Read` (abstracted by a numeric code). -/
inductive GoErr where
  | keySize (n : Nat)
  | gcmBlockSize
  | randErr (code : Nat)
  deriving DecidableEq

/-- Model of a `cipher.Block` as far as the code observes it: only its
block size matters to `cipher.NewGCM`. -/
structure Block where
  blockSize : Nat
  deriving DecidableEq

/-- Model of `aes.NewCipher` (Go `crypto/aes`): succeeds exactly when the
key is 16, 24 or 32 bytes long, yielding a 16-byte-block cipher; otherwise
returns `aes.KeySizeError`. -/
def aesNewCipher (key : GoStr) : Except GoErr Block :=
  if key.length = 16 ∨ key.length = 24 ∨ key.length = 32 then
    Except.ok ⟨16⟩
  else
    Except.error (GoErr.keySize key.length)

/-- Model of `cipher.NewGCM` (Go `crypto/cipher`): succeeds exactly when
the underlying block cipher has 128-bit (16-byte) blocks. -/
def cipherNewGCM (b : Block) : Except GoErr Unit :=
  if b.blockSize = 16 then Except.ok () else Except.error GoErr.gcmBlockSize

/-- Abstract cryptographic primitives called by the code: `pbkdf2.Key`
(taking password, salt, iteration count, key length and the internal hash
constructor), `sha256` as a whole-input digest, and the AES-GCM
`Seal`/`Open` operations (key, nonce, data; `Seal` appends the 16-byte
tag, `Open` checks it). -/
structure CryptoPrim where
  pbkdf2Key : GoStr → GoStr → Nat → Nat → (GoStr → GoStr) → GoStr
  sha256Sum : GoStr → GoStr
  gcmSeal : GoStr → GoStr → GoStr → GoStr
  gcmOpen : GoStr → GoStr → GoStr → Option GoStr

/-- Documented contract of `pbkdf2.Key`: the derived key has exactly the
requested length. -/
def Pbkdf2Len (A : CryptoPrim) : Prop :=
  ∀ p s i l h, (A.pbkdf2Key p s i l h).length = l

/-- Documented contract of AES-GCM `Seal`: on a byte-string plaintext its
output is a byte string. -/
def SealBytes (A : CryptoPrim) : Prop :=
  ∀ k n m, (∀ b ∈ m, b < 256) → ∀ b ∈ A.gcmSeal k n m, b < 256

/-- Functional correctness of AES-GCM: `Open` inverts `Seal` under the
same key and (12-byte) nonce, for byte-string plaintexts. -/
def SealOpenId (A : CryptoPrim) : Prop :=
  ∀ k n m, n.length = 12 → (∀ b ∈ m, b < 256) →
    A.gcmOpen k n (A.gcmSeal k n m) = some m

/-- Documented behaviour of AES-GCM `Open`: input shorter than the
128-bit (16-byte) authentication tag is rejected. -/
def OpenShort (A : CryptoPrim) : Prop :=
  ∀ k n d, d.length < 16 → A.gcmOpen k n d = none

/-- Shape contract of `sha256.Sum256`: a 32-byte digest. -/
def Sha256Shape (A : CryptoPrim) : Prop :=
  ∀ x, (A.sha256Sum x).length = 32 ∧ ∀ b ∈ A.sha256Sum x, b < 256

/-- Embedding of `deriveKey` (encrypt.go line 14): calls `pbkdf2.Key`
with iteration count 1000, key length 32 and `sha256.New` as internal
hash, and returns the key together with the salt unchanged. -/
def deriveKey (A : CryptoPrim) (passphrase : GoStr) (salt : GoStr) :
    GoStr × GoStr :=
  (A.pbkdf2Key passphrase salt 1000 32 A.sha256Sum, salt)

/-- Nibble-to-character table of Go `encoding/hex` encoding:
`0123456789abcdef` as byte values. -/
def toHexChar (n : Nat) : Nat :=
  if n < 10 then 48 + n else 87 + n

/-- Embedding of Go `hex.EncodeToString`: two lowercase hex characters
per byte, high nibble first. -/
def hexEncode : GoStr → GoStr
  | [] => []
  | b :: bs => toHexChar (b / 16) :: toHexChar (b % 16) :: hexEncode bs

/-- Character-to-nibble reading of Go `encoding/hex` decoding: accepts
`0-9`, `a-f` and `A-F`; anything else is an error. -/
def fromHexChar (c : Nat) : Option Nat :=
  if 48 ≤ c ∧ c ≤ 57 then some (c - 48)
  else if 97 ≤ c ∧ c ≤ 102 then some (c - 97 + 10)
  else if 65 ≤ c ∧ c ≤ 70 then some (c - 65 + 10)
  else none

/-- Embedding of Go `hex.DecodeString`: fails on odd length or on any
invalid character, otherwise yields the decoded bytes. -/
def hexDecode : GoStr → Option GoStr
  | [] => some []
  | [_] => none
  | c1 :: c2 :: rest =>
    match fromHexChar c1, fromHexChar c2, hexDecode rest with
    | some hi, some lo, some bs => some ((hi * 16 + lo) :: bs)
    | _, _, _ => none

/-- Embedding of Go `strings.Split(s, "-")`: splits on every occurrence
of the byte 45 (`-`); the empty string yields one empty component. -/
def splitDash : GoStr → List GoStr
  | [] => [[]]
  | c :: rest =>
    if c = 45 then [] :: splitDash rest
    else
      match splitDash rest with
      | [] => [[c]]
      | p :: ps => (c :: p) :: ps

/-- Envelope assembly as performed on encrypt.go line 35:
`hex(salt) + "-" + hex(iv) + "-" + hex(data)`. -/
def mkEnvelope (salt iv data : GoStr) : GoStr :=
  hexEncode salt ++ 45 :: hexEncode iv ++ 45 :: hexEncode data

/-- Embedding of `Encrypt` (encrypt.go lines 19-36).  The outcome of
`rand.Read` into the 12-byte IV buffer is passed explicitly as `randIV`:
`Except.error e` models a platform randomness failure, `Except.ok iv`
models a successful fill. -/
def Encrypt (A : CryptoPrim) (randIV : Except GoErr GoStr)
    (passphrase plaintext : GoStr) : Except GoErr GoStr :=
  let ks := deriveKey A passphrase []
  match randIV with
  | Except.error e => Except.error e
  | Except.ok iv =>
    match aesNewCipher ks.1 with
    | Except.error e => Except.error e
    | Except.ok b =>
      match cipherNewGCM b with
      | Except.error e => Except.error e
      | Except.ok _ =>
        let data := A.gcmSeal ks.1 iv plaintext
        Except.ok (mkEnvelope ks.2 iv data)

/-- Embedding of `Decrypt` (encrypt.go lines 39-75): split on `-`,
require exactly 3 components, hex-decode each, require a 12-byte IV,
derive the key from the passphrase and the decoded salt, rebuild the
cipher and open; every failure returns the empty string. -/
def Decrypt (A : CryptoPrim) (passphrase ciphertext : GoStr) : GoStr :=
  match splitDash ciphertext with
  | [a0, a1, a2] =>
    match hexDecode a0 with
    | none => []
    | some salt =>
      match hexDecode a1 with
      | none => []
      | some iv =>
        if iv.length ≠ 12 then []
        else
          match hexDecode a2 with
          | none => []
          | some data =>
            let key := (deriveKey A passphrase salt).1
            match aesNewCipher key with
            | Except.error _ => []
            | Except.ok b =>
              match cipherNewGCM b with
              | Except.error _ => []
              | Except.ok _ =>
                match A.gcmOpen key iv data with
                | none => []
                | some opened => opened
  | _ => []

/-- Modelled from the spec: `Hash` is absent from the sources (only its
fuzz test and callers are present).  Per the spec it computes the SHA-256
digest of the input bytes and renders it as 64 lowercase hexadecimal
characters; the error return materialises only on an internal
hashing-engine failure, which has no trigger, so the model always
succeeds. -/
def Hash (A : CryptoPrim) (input : GoStr) : Except GoErr GoStr :=
  Except.ok (hexEncode (A.sha256Sum input))

/-- Structural well-formedness of an envelope, exactly the checks Decrypt
performs before touching cryptography: 3 components, each valid hex, IV
decoding to 12 bytes. -/
def wellFormedEnv (s : GoStr) : Bool :=
  match splitDash s with
  | [a0, a1, a2] =>
    (hexDecode a0).isSome &&
      (match hexDecode a1 with
       | some iv => iv.length = 12
       | none => false) &&
      (hexDecode a2).isSome
  | _ => false

/-- Key used by every `Encrypt` call: derivation from the passphrase with
the `nil` (zero-length) salt hard-coded on encrypt.go line 20. -/
def encryptionKey (A : CryptoPrim) (passphrase : GoStr) : GoStr :=
  (deriveKey A passphrase []).1

/-- Executable instance of the abstract primitives, used to witness the
satisfiability of the library contracts: a toy tag scheme in place of
GCM and sum-based digests in place of PBKDF2/SHA-256. -/
def tagOf (k n m : GoStr) : GoStr :=
  (List.range 16).map (fun i => (k.sum + n.sum + m.sum + i) % 256)

/-- Concrete primitive instance satisfying all the contracts. -/
def concretePrim : CryptoPrim where
  pbkdf2Key := fun p s _ l _ => (List.range l).map (fun i => (p.sum + s.sum + i) % 256)
  sha256Sum := fun x => (List.range 32).map (fun i => (x.sum + i) % 256)
  gcmSeal := fun k n m => m ++ tagOf k n m
  gcmOpen := fun k n d =>
    if d.length < 16 then none
    else
      let m := d.take (d.length - 16)
      if d.drop (d.length - 16) = tagOf k n m then some m else none

/-! ### Helper lemmas about the hex codec and the splitter -/

theorem toHexChar_ge (n : Nat) : 48 ≤ toHexChar n := by
  unfold toHexChar; split <;> omega

theorem toHexChar_ne_dash (n : Nat) : toHexChar n ≠ 45 := by
  have := toHexChar_ge n; omega

theorem fromHexChar_toHexChar (n : Nat) (h : n < 16) :
    fromHexChar (toHexChar n) = some n := by
  unfold toHexChar fromHexChar
  by_cases h10 : n < 10
  · rw [if_pos h10, if_pos (by omega : 48 ≤ 48 + n ∧ 48 + n ≤ 57)]
    simp
  · rw [if_neg h10, if_neg (by omega : ¬(48 ≤ 87 + n ∧ 87 + n ≤ 57)),
      if_pos (by omega : 97 ≤ 87 + n ∧ 87 + n ≤ 102)]
    simp only [Option.some.injEq]
    omega

theorem toHexChar_class (n : Nat) (h : n < 16) :
    (48 ≤ toHexChar n ∧ toHexChar n ≤ 57) ∨
      (97 ≤ toHexChar n ∧ toHexChar n ≤ 102) := by
  unfold toHexChar; split <;> omega

theorem hexEncode_ge (bs : GoStr) : ∀ c ∈ hexEncode bs, 48 ≤ c := by
  induction bs with
  | nil => intro c hc; simp [hexEncode] at hc
  | cons b bs ih =>
    intro c hc
    simp only [hexEncode, List.mem_cons] at hc
    rcases hc with h | h | h
    · exact h ▸ toHexChar_ge _
    · exact h ▸ toHexChar_ge _
    · exact ih c h

theorem hexEncode_ne_dash (bs : GoStr) : ∀ c ∈ hexEncode bs, c ≠ 45 := by
  intro c hc
  have := hexEncode_ge bs c hc
  omega

theorem hexEncode_length (bs : GoStr) :
    (hexEncode bs).length = 2 * bs.length := by
  induction bs with
  | nil => rfl
  | cons b bs ih => simp [hexEncode, ih]; omega

theorem hexEncode_class (bs : GoStr) (hb : ∀ b ∈ bs, b < 256) :
    ∀ c ∈ hexEncode bs, (48 ≤ c ∧ c ≤ 57) ∨ (97 ≤ c ∧ c ≤ 102) := by
  induction bs with
  | nil => intro c hc; simp [hexEncode] at hc
  | cons b bs ih =>
    intro c hc
    have hblt : b < 256 := hb b (List.mem_cons_self b bs)
    simp only [hexEncode, List.mem_cons] at hc
    rcases hc with h | h | h
    · exact h ▸ toHexChar_class _ (by omega)
    · exact h ▸ toHexChar_class _ (by omega)
    · exact ih (fun x hx => hb x (List.mem_cons_of_mem b hx)) c h

theorem hexDecode_hexEncode (bs : GoStr) (hb : ∀ b ∈ bs, b < 256) :
    hexDecode (hexEncode bs) = some bs := by
  induction bs with
  | nil => rfl
  | cons b bs ih =>
    have hblt : b < 256 := hb b (List.mem_cons_self b bs)
    have ih2 := ih (fun x hx => hb x (List.mem_cons_of_mem b hx))
    simp only [hexEncode, hexDecode]
    rw [fromHexChar_toHexChar (b / 16) (by omega),
      fromHexChar_toHexChar (b % 16) (by omega), ih2]
    have : b / 16 * 16 + b % 16 = b := by omega
    simp [this]

theorem splitDash_no_dash (s : GoStr) (h : ∀ c ∈ s, c ≠ 45) :
    splitDash s = [s] := by
  induction s with
  | nil => rfl
  | cons c rest ih =>
    have hc : c ≠ 45 := h c (List.mem_cons_self c rest)
    have ih2 := ih (fun x hx => h x (List.mem_cons_of_mem c hx))
    simp [splitDash, hc, ih2]

theorem splitDash_append (a r : GoStr) (h : ∀ c ∈ a, c ≠ 45) :
    splitDash (a ++ 45 :: r) = a :: splitDash r := by
  induction a with
  | nil => simp [splitDash]
  | cons c a ih =>
    have hc : c ≠ 45 := h c (List.mem_cons_self c a)
    have ih2 := ih (fun x hx => h x (List.mem_cons_of_mem c hx))
    simp [splitDash, hc, ih2]

theorem splitDash_mkEnvelope (s n c : GoStr) :
    splitDash (mkEnvelope s n c) =
      [hexEncode s, hexEncode n, hexEncode c] := by
  have hshape : mkEnvelope s n c =
      hexEncode s ++ 45 :: (hexEncode n ++ 45 :: hexEncode c) := by
    simp [mkEnvelope]
  rw [hshape, splitDash_append _ _ (hexEncode_ne_dash s),
    splitDash_append _ _ (hexEncode_ne_dash n),
    splitDash_no_dash _ (hexEncode_ne_dash c)]

/-! ### Characterisations of Encrypt and Decrypt -/

theorem Encrypt_ok_eq (A : CryptoPrim) (hlen : Pbkdf2Len A)
    (p m iv : GoStr) :
    Encrypt A (Except.ok iv) p m =
      Except.ok (mkEnvelope [] iv (A.gcmSeal (encryptionKey A p) iv m)) := by
  unfold Encrypt deriveKey encryptionKey aesNewCipher cipherNewGCM
  simp [hlen p [] 1000 32 A.sha256Sum, deriveKey]

theorem Decrypt_parsed (A : CryptoPrim) (p s n c : GoStr)
    (hs : ∀ b ∈ s, b < 256) (hn : ∀ b ∈ n, b < 256) (hc : ∀ b ∈ c, b < 256)
    (hnlen : n.length = 12) :
    Decrypt A p (mkEnvelope s n c) =
      if (A.pbkdf2Key p s 1000 32 A.sha256Sum).length = 16 ∨
          (A.pbkdf2Key p s 1000 32 A.sha256Sum).length = 24 ∨
          (A.pbkdf2Key p s 1000 32 A.sha256Sum).length = 32 then
        match A.gcmOpen (A.pbkdf2Key p s 1000 32 A.sha256Sum) n c with
        | none => []
        | some opened => opened
      else [] := by
  simp only [Decrypt, splitDash_mkEnvelope]
  simp only [hexDecode_hexEncode s hs, hexDecode_hexEncode n hn,
    hexDecode_hexEncode c hc, hnlen, deriveKey]
  rw [if_neg (by omega : ¬((12 : Nat) ≠ 12))]
  by_cases hk : (A.pbkdf2Key p s 1000 32 A.sha256Sum).length = 16 ∨
      (A.pbkdf2Key p s 1000 32 A.sha256Sum).length = 24 ∨
      (A.pbkdf2Key p s 1000 32 A.sha256Sum).length = 32
  · rw [if_pos hk]
    simp only [aesNewCipher, if_pos hk, cipherNewGCM]
    simp
  · rw [if_neg hk]
    simp only [aesNewCipher, if_neg hk]

theorem Decrypt_parsed_len (A : CryptoPrim) (hlen : Pbkdf2Len A)
    (p s n c : GoStr) (hs : ∀ b ∈ s, b < 256) (hn : ∀ b ∈ n, b < 256)
    (hc : ∀ b ∈ c, b < 256) (hnlen : n.length = 12) :
    Decrypt A p (mkEnvelope s n c) =
      match A.gcmOpen (A.pbkdf2Key p s 1000 32 A.sha256Sum) n c with
      | none => []
      | some opened => opened := by
  rw [Decrypt_parsed A p s n c hs hn hc hnlen,
    if_pos (Or.inr (Or.inr (hlen p s 1000 32 A.sha256Sum)))]

/-! ### The concrete primitive instance satisfies all the contracts -/

theorem concrete_pbkdf2_len : Pbkdf2Len concretePrim := by
  intro p s i l h
  simp [concretePrim]

theorem concrete_seal_bytes : SealBytes concretePrim := by
  intro k n m hm b hb
  simp only [concretePrim, List.mem_append] at hb
  rcases hb with h | h
  · exact hm b h
  · simp only [tagOf, List.mem_map, List.mem_range] at h
    obtain ⟨i, _, hi⟩ := h
    omega

theorem concrete_seal_open : SealOpenId concretePrim := by
  intro k n m _hn _hm
  have hlen : (m ++ tagOf k n m).length = m.length + 16 := by
    simp [tagOf]
  simp only [concretePrim]
  rw [if_neg (by omega)]
  have htake : (m ++ tagOf k n m).take ((m ++ tagOf k n m).length - 16) = m := by
    rw [hlen, Nat.add_sub_cancel]
    exact List.take_left _ _
  have hdrop : (m ++ tagOf k n m).drop ((m ++ tagOf k n m).length - 16) =
      tagOf k n m := by
    rw [hlen, Nat.add_sub_cancel]
    exact List.drop_left _ _
  simp only [htake, hdrop, if_pos rfl]
  simp

theorem concrete_open_short : OpenShort concretePrim := by
  intro k n d hd
  simp [concretePrim, hd]

theorem concrete_sha_shape : Sha256Shape concretePrim := by
  intro x
  constructor
  · simp [concretePrim]
  · intro b hb
    simp only [concretePrim, List.mem_map, List.mem_range] at hb
    obtain ⟨i, _, hi⟩ := hb
    omega

/-! ### Further helpers used by the claim theorems -/

/-- Payload of a successful result; used to state closed corollaries. -/
def okValue : Except GoErr GoStr → GoStr
  | Except.ok s => s
  | Except.error _ => []

/-- Error produced while building the AES-GCM cipher for a given
passphrase during encryption, if any. -/
def cipherConstructionErr (A : CryptoPrim) (p : GoStr) : Option GoErr :=
  match aesNewCipher (encryptionKey A p) with
  | Except.error e => some e
  | Except.ok b =>
    match cipherNewGCM b with
    | Except.error e => some e
    | Except.ok _ => none

theorem Decrypt_ne_nil_wf (A : CryptoPrim) (p s : GoStr)
    (h : Decrypt A p s ≠ []) : wellFormedEnv s = true := by
  unfold Decrypt at h
  split at h
  · rename_i a0 a1 a2 heq
    split at h
    · exact absurd rfl h
    · rename_i salt hsalt
      split at h
      · exact absurd rfl h
      · rename_i iv hiv
        split at h
        · exact absurd rfl h
        · rename_i hl12
          split at h
          · exact absurd rfl h
          · rename_i data hdata
            have hl : iv.length = 12 := by
              by_contra hc
              exact hl12 hc
            simp only [wellFormedEnv, heq, hsalt, hiv, hdata, hl]
            simp
  · exact absurd rfl h

/-! ### Claim theorems -/

/-- C1: for every passphrase `p` and every byte-string plaintext `m`
(including the empty string and strings with embedded control bytes), if
`Encrypt p m` succeeds — with the 12-byte random nonce the platform
supplied — and returns envelope `env`, then `Decrypt p env` returns
exactly `m`, given the documented AES-GCM and PBKDF2 library
contracts. -/
theorem c1_encrypt_decrypt_round_trip (A : CryptoPrim) (hlen : Pbkdf2Len A)
    (hso : SealOpenId A) (hsb : SealBytes A) (p m iv env : GoStr)
    (hm : ∀ b ∈ m, b < 256) (hivlen : iv.length = 12)
    (hivb : ∀ b ∈ iv, b < 256)
    (henc : Encrypt A (Except.ok iv) p m = Except.ok env) :
    Decrypt A p env = m := by
  have henv : env = mkEnvelope [] iv (A.gcmSeal (encryptionKey A p) iv m) := by
    rw [Encrypt_ok_eq A hlen p m iv] at henc
    exact (Except.ok.inj henc).symm
  subst henv
  rw [Decrypt_parsed_len A hlen p [] iv _ (by simp) hivb
    (hsb _ _ _ hm) hivlen]
  simp only [encryptionKey, deriveKey]
  rw [hso (A.pbkdf2Key p [] 1000 32 A.sha256Sum) iv m hivlen hm]

/-- Witness for C1: a concrete passphrase, plaintext and nonce on the
concrete primitive instance. -/
theorem c1_witness :
    Decrypt concretePrim [112, 119] (okValue (Encrypt concretePrim
      (Except.ok (List.replicate 12 7)) [112, 119] [104, 105])) =
      [104, 105] :=
  c1_encrypt_decrypt_round_trip concretePrim concrete_pbkdf2_len
    concrete_seal_open concrete_seal_bytes [112, 119] [104, 105]
    (List.replicate 12 7) _ (by decide) (by decide) (by decide) rfl

/-- C2: `Decrypt` is total and fail-closed.  The embedding is a total
function (the Go code returns on every branch), and for every passphrase
and every input string that is structurally malformed — component count
other than 3, non-hex components, or a nonce component that does not
decode to 12 bytes — it returns the empty string; likewise when the input
parses but the AEAD authentication check rejects the data. -/
theorem c2_decrypt_fail_closed (A : CryptoPrim) (p s : GoStr) :
    (wellFormedEnv s = false → Decrypt A p s = []) ∧
    (∀ a0 a1 a2 salt iv data, splitDash s = [a0, a1, a2] →
      hexDecode a0 = some salt → hexDecode a1 = some iv → iv.length = 12 →
      hexDecode a2 = some data →
      A.gcmOpen (deriveKey A p salt).1 iv data = none →
      Decrypt A p s = []) := by
  constructor
  · intro hmal
    by_contra hne
    rw [Decrypt_ne_nil_wf A p s hne] at hmal
    exact Bool.noConfusion hmal
  · intro a0 a1 a2 salt iv data hsp h0 h1 hl h2 hopn
    unfold Decrypt
    simp only [hsp, h0, h1, h2, hl]
    rw [if_neg (by omega : ¬((12 : Nat) ≠ 12))]
    simp only [hopn]
    split
    · rfl
    · split
      · rfl
      · rfl

/-- Witness for C2: a string without dashes, and a well-formed envelope
whose data fails the authentication check. -/
theorem c2_witness :
    Decrypt concretePrim [112] [97] = [] ∧
    Decrypt concretePrim [112]
      (mkEnvelope [] (List.replicate 12 0) (List.replicate 16 0)) = [] := by
  constructor
  · exact (c2_decrypt_fail_closed concretePrim [112] [97]).1 (by decide)
  · exact (c2_decrypt_fail_closed concretePrim [112]
      (mkEnvelope [] (List.replicate 12 0) (List.replicate 16 0))).2
      [] (hexEncode (List.replicate 12 0)) (hexEncode (List.replicate 16 0))
      [] (List.replicate 12 0) (List.replicate 16 0)
      (by decide) (by decide) (by decide) (by decide) (by decide) (by decide)

/-- C9: `Decrypt` derives the key from the passphrase together with the
decoded salt component of the input envelope, not from a fixed empty
salt: for every envelope built over any byte-string salt `s` (including
non-empty ones, which `Encrypt` never produces) with a 12-byte nonce, the
key opening the data is derived from `(passphrase, s)`, so a plaintext
sealed under that key is recovered. -/
theorem c9_decrypt_uses_envelope_salt (A : CryptoPrim) (hlen : Pbkdf2Len A)
    (hso : SealOpenId A) (hsb : SealBytes A) (p s iv m : GoStr)
    (hs : ∀ b ∈ s, b < 256) (hivlen : iv.length = 12)
    (hivb : ∀ b ∈ iv, b < 256) (hm : ∀ b ∈ m, b < 256) :
    Decrypt A p (mkEnvelope s iv
      (A.gcmSeal (A.pbkdf2Key p s 1000 32 A.sha256Sum) iv m)) = m := by
  rw [Decrypt_parsed_len A hlen p s iv _ hs hivb (hsb _ _ _ hm) hivlen,
    hso (A.pbkdf2Key p s 1000 32 A.sha256Sum) iv m hivlen hm]

/-- Witness for C9: a non-empty salt on the concrete instance. -/
theorem c9_witness :
    Decrypt concretePrim [3] (mkEnvelope [171] (List.replicate 12 5)
      (concretePrim.gcmSeal
        (concretePrim.pbkdf2Key [3] [171] 1000 32 concretePrim.sha256Sum)
        (List.replicate 12 5) [42, 43])) = [42, 43] :=
  c9_decrypt_uses_envelope_salt concretePrim concrete_pbkdf2_len
    concrete_seal_open concrete_seal_bytes [3] [171] (List.replicate 12 5)
    [42, 43] (by decide) (by decide) (by decide) (by decide)

/-- C10: for every passphrase and every input whose three components are
valid hexadecimal with a 12-byte nonce but whose data component decodes
to fewer than 16 bytes — shorter than the 128-bit GCM tag, in particular
an empty data component — `Decrypt` returns the empty string. -/
theorem c10_short_data_rejected (A : CryptoPrim) (hshort : OpenShort A)
    (p s0 a0 a1 a2 salt iv data : GoStr)
    (hsp : splitDash s0 = [a0, a1, a2]) (h0 : hexDecode a0 = some salt)
    (h1 : hexDecode a1 = some iv) (hl : iv.length = 12)
    (h2 : hexDecode a2 = some data) (hdl : data.length < 16) :
    Decrypt A p s0 = [] := by
  unfold Decrypt
  simp only [hsp, h0, h1, h2, hl]
  rw [if_neg (by omega : ¬((12 : Nat) ≠ 12))]
  rw [hshort (deriveKey A p salt).1 iv data hdl]
  split
  · rfl
  · split
    · rfl
    · rfl

/-- Witness for C10: an envelope with an empty data component. -/
theorem c10_witness :
    Decrypt concretePrim [9] (mkEnvelope [1] (List.replicate 12 2) []) =
      [] :=
  c10_short_data_rejected concretePrim concrete_open_short [9]
    (mkEnvelope [1] (List.replicate 12 2) [])
    (hexEncode [1]) (hexEncode (List.replicate 12 2)) []
    [1] (List.replicate 12 2) []
    (by decide) (by decide) (by decide) (by decide) (by decide) (by decide)

/-- C3: for every non-empty byte-string plaintext `m` and distinct
passphrases `p1 ≠ p2`, decrypting `Encrypt p1 m` under `p2` does not
yield `m`: conditioned on the AEAD authentication-tag check failing under
the mismatched key (the overwhelming-probability event the claim names),
the result is the empty string, which differs from `m`. -/
theorem c3_wrong_key_rejected (A : CryptoPrim) (hlen : Pbkdf2Len A)
    (hsb : SealBytes A) (p1 p2 m iv env : GoStr) (_hne : p1 ≠ p2)
    (hm : m ≠ []) (hmB : ∀ b ∈ m, b < 256) (hivlen : iv.length = 12)
    (hivb : ∀ b ∈ iv, b < 256)
    (hrej : A.gcmOpen (encryptionKey A p2) iv
      (A.gcmSeal (encryptionKey A p1) iv m) = none)
    (henc : Encrypt A (Except.ok iv) p1 m = Except.ok env) :
    Decrypt A p2 env = [] ∧ Decrypt A p2 env ≠ m := by
  have henv : env = mkEnvelope [] iv (A.gcmSeal (encryptionKey A p1) iv m) := by
    rw [Encrypt_ok_eq A hlen p1 m iv] at henc
    exact (Except.ok.inj henc).symm
  subst henv
  have hres : Decrypt A p2
      (mkEnvelope [] iv (A.gcmSeal (encryptionKey A p1) iv m)) = [] := by
    rw [Decrypt_parsed_len A hlen p2 [] iv _ (by simp) hivb
      (hsb _ _ _ hmB) hivlen]
    simp only [encryptionKey, deriveKey] at hrej ⊢
    rw [hrej]
  exact ⟨hres, by rw [hres]; exact fun hcontra => hm hcontra.symm⟩

/-- Witness for C3: distinct one-byte passphrases on the concrete
instance, whose derived keys produce mismatching tags. -/
theorem c3_witness :
    Decrypt concretePrim [1] (okValue (Encrypt concretePrim
      (Except.ok (List.replicate 12 0)) [0] [7])) = [] :=
  (c3_wrong_key_rejected concretePrim concrete_pbkdf2_len
    concrete_seal_bytes [0] [1] [7] (List.replicate 12 0) _
    (by decide) (by decide) (by decide) (by decide) (by decide)
    (by decide) rfl).1

/-- C4: every envelope returned by a successful `Encrypt` splits on `-`
into exactly 3 components, each valid even-length hexadecimal; the first
(salt) component is empty, and the second (nonce) component decodes to
exactly 12 bytes. -/
theorem c4_envelope_shape (A : CryptoPrim) (hlen : Pbkdf2Len A)
    (hsb : SealBytes A) (p m iv env : GoStr) (hm : ∀ b ∈ m, b < 256)
    (hivlen : iv.length = 12) (hivb : ∀ b ∈ iv, b < 256)
    (henc : Encrypt A (Except.ok iv) p m = Except.ok env) :
    splitDash env =
      [[], hexEncode iv, hexEncode (A.gcmSeal (encryptionKey A p) iv m)] ∧
    hexDecode ([] : GoStr) = some [] ∧
    hexDecode (hexEncode iv) = some iv ∧ iv.length = 12 ∧
    (hexDecode (hexEncode (A.gcmSeal (encryptionKey A p) iv m))).isSome =
      true ∧
    ([] : GoStr).length % 2 = 0 ∧ (hexEncode iv).length % 2 = 0 ∧
    (hexEncode (A.gcmSeal (encryptionKey A p) iv m)).length % 2 = 0 := by
  have henv : env = mkEnvelope [] iv (A.gcmSeal (encryptionKey A p) iv m) := by
    rw [Encrypt_ok_eq A hlen p m iv] at henc
    exact (Except.ok.inj henc).symm
  subst henv
  refine ⟨splitDash_mkEnvelope [] iv _, rfl, hexDecode_hexEncode iv hivb,
    hivlen, ?_, rfl, ?_, ?_⟩
  · rw [hexDecode_hexEncode _ (hsb _ _ _ hm)]
    rfl
  · rw [hexEncode_length]
    omega
  · rw [hexEncode_length]
    omega

/-- Witness for C4 at a concrete passphrase, plaintext and nonce. -/
theorem c4_witness :
    splitDash (okValue (Encrypt concretePrim
        (Except.ok (List.replicate 12 9)) [20] [30])) =
      [[], hexEncode (List.replicate 12 9),
        hexEncode (concretePrim.gcmSeal (encryptionKey concretePrim [20])
          (List.replicate 12 9) [30])] :=
  (c4_envelope_shape concretePrim concrete_pbkdf2_len concrete_seal_bytes
    [20] [30] (List.replicate 12 9) _ (by decide) (by decide) (by decide)
    rfl).1

/-- C5: every key derivation performed during encryption uses a
zero-length salt, and consequently the derived key is the same single
value `encryptionKey A p = pbkdf2(p, [], 1000, 32, sha256)` across all
encryption calls with the same passphrase, whatever the plaintexts and
nonces. -/
theorem c5_zero_salt_stable_key (A : CryptoPrim) (hlen : Pbkdf2Len A)
    (p m1 m2 iv1 iv2 : GoStr) :
    (deriveKey A p []).2 = [] ∧
    encryptionKey A p = A.pbkdf2Key p [] 1000 32 A.sha256Sum ∧
    Encrypt A (Except.ok iv1) p m1 =
      Except.ok (mkEnvelope [] iv1 (A.gcmSeal (encryptionKey A p) iv1 m1)) ∧
    Encrypt A (Except.ok iv2) p m2 =
      Except.ok (mkEnvelope [] iv2 (A.gcmSeal (encryptionKey A p) iv2 m2)) :=
  ⟨rfl, rfl, Encrypt_ok_eq A hlen p m1 iv1, Encrypt_ok_eq A hlen p m2 iv2⟩

/-- Witness for C5 with two different plaintexts and nonces. -/
theorem c5_witness :
    encryptionKey concretePrim [8] =
      concretePrim.pbkdf2Key [8] [] 1000 32 concretePrim.sha256Sum ∧
    Encrypt concretePrim (Except.ok (List.replicate 12 1)) [8] [2] =
      Except.ok (mkEnvelope [] (List.replicate 12 1)
        (concretePrim.gcmSeal (encryptionKey concretePrim [8])
          (List.replicate 12 1) [2])) ∧
    Encrypt concretePrim (Except.ok (List.replicate 12 4)) [8] [3] =
      Except.ok (mkEnvelope [] (List.replicate 12 4)
        (concretePrim.gcmSeal (encryptionKey concretePrim [8])
          (List.replicate 12 4) [3])) :=
  ⟨(c5_zero_salt_stable_key concretePrim concrete_pbkdf2_len
      [8] [2] [3] (List.replicate 12 1) (List.replicate 12 4)).2.1,
   (c5_zero_salt_stable_key concretePrim concrete_pbkdf2_len
      [8] [2] [3] (List.replicate 12 1) (List.replicate 12 4)).2.2.1,
   (c5_zero_salt_stable_key concretePrim concrete_pbkdf2_len
      [8] [2] [3] (List.replicate 12 1) (List.replicate 12 4)).2.2.2⟩

/-- C6: `deriveKey` is a deterministic pure function of
`(passphrase, salt)`: it is exactly one call of the password-based KDF
with fixed iteration count 1000, 32-byte output and SHA-256 as internal
hash, it has no error conditions (its type is a plain pair, not a
fallible result), and under the KDF contract the key is 32 bytes. -/
theorem c6_deriveKey_pure (A : CryptoPrim) (hlen : Pbkdf2Len A)
    (p s : GoStr) :
    deriveKey A p s = (A.pbkdf2Key p s 1000 32 A.sha256Sum, s) ∧
    (deriveKey A p s).1.length = 32 :=
  ⟨rfl, hlen p s 1000 32 A.sha256Sum⟩

/-- Witness for C6 at a concrete passphrase and salt. -/
theorem c6_witness :
    deriveKey concretePrim [1, 2] [3] =
      (concretePrim.pbkdf2Key [1, 2] [3] 1000 32 concretePrim.sha256Sum,
        [3]) ∧
    (deriveKey concretePrim [1, 2] [3]).1.length = 32 :=
  c6_deriveKey_pure concretePrim concrete_pbkdf2_len [1, 2] [3]

/-- C7: `Encrypt` fails with an error exactly when the platform cannot
supply randomness for the nonce or the cipher cannot be constructed, and
the very error value is propagated to the caller (never substituted,
never retried); in every other case it returns an envelope with no
error. -/
theorem c7_encrypt_error_iff (A : CryptoPrim) (p m : GoStr)
    (r : Except GoErr GoStr) (e : GoErr) :
    (Encrypt A r p m = Except.error e ↔
      r = Except.error e ∨
        ∃ iv, r = Except.ok iv ∧ cipherConstructionErr A p = some e) ∧
    (∀ iv, r = Except.ok iv → cipherConstructionErr A p = none →
      Encrypt A r p m =
        Except.ok (mkEnvelope [] iv (A.gcmSeal (encryptionKey A p) iv m))) := by
  have hkey : encryptionKey A p = (deriveKey A p []).1 := rfl
  constructor
  · cases r with
    | error e0 =>
      constructor
      · intro h
        exact Or.inl h
      · intro h
        rcases h with h | ⟨iv, hiv, _⟩
        · exact h
        · exact Except.noConfusion hiv
    | ok iv =>
      rcases hae : aesNewCipher (deriveKey A p []).1 with e1 | b
      · constructor
        · intro h
          simp only [Encrypt, hae] at h
          refine Or.inr ⟨iv, rfl, ?_⟩
          simp only [cipherConstructionErr, hkey, hae]
          rw [Except.error.inj h]
        · rintro (h | ⟨iv2, _, hcc⟩)
          · exact Except.noConfusion h
          · simp only [cipherConstructionErr, hkey, hae] at hcc
            simp only [Encrypt, hae]
            rw [Option.some.inj hcc]
      · rcases hgc : cipherNewGCM b with e1 | u
        · constructor
          · intro h
            simp only [Encrypt, hae, hgc] at h
            refine Or.inr ⟨iv, rfl, ?_⟩
            simp only [cipherConstructionErr, hkey, hae, hgc]
            rw [Except.error.inj h]
          · rintro (h | ⟨iv2, _, hcc⟩)
            · exact Except.noConfusion h
            · simp only [cipherConstructionErr, hkey, hae, hgc] at hcc
              simp only [Encrypt, hae, hgc]
              rw [Option.some.inj hcc]
        · constructor
          · intro h
            simp only [Encrypt, hae, hgc] at h
            exact Except.noConfusion h
          · rintro (h | ⟨iv2, _, hcc⟩)
            · exact Except.noConfusion h
            · simp only [cipherConstructionErr, hkey, hae, hgc] at hcc
              exact Option.noConfusion hcc
  · intro iv hiv hcc
    subst hiv
    simp only [cipherConstructionErr, hkey] at hcc
    rcases hae : aesNewCipher (deriveKey A p []).1 with e1 | b
    · rw [hae] at hcc
      exact Option.noConfusion hcc
    · rcases hgc : cipherNewGCM b with e1 | u
      · simp only [hae] at hcc
        rw [hgc] at hcc
        exact Option.noConfusion hcc
      · simp only [Encrypt, hae, hgc]
        rfl

/-- Witness for C7: a concrete randomness failure is propagated verbatim,
and a concrete successful randomness draw yields an envelope. -/
theorem c7_witness :
    Encrypt concretePrim (Except.error (GoErr.randErr 3)) [5] [6] =
      Except.error (GoErr.randErr 3) ∧
    Encrypt concretePrim (Except.ok (List.replicate 12 1)) [5] [6] =
      Except.ok (mkEnvelope [] (List.replicate 12 1)
        (concretePrim.gcmSeal (encryptionKey concretePrim [5])
          (List.replicate 12 1) [6])) :=
  ⟨(c7_encrypt_error_iff concretePrim [5] [6]
      (Except.error (GoErr.randErr 3)) (GoErr.randErr 3)).1.mpr
      (Or.inl rfl),
   (c7_encrypt_error_iff concretePrim [5] [6]
      (Except.ok (List.replicate 12 1)) (GoErr.randErr 3)).2
      (List.replicate 12 1) rfl (by decide)⟩

/-- C8: `Hash` is deterministic and for every input its output is the
digest rendered as exactly 64 characters drawn from the lowercase
hexadecimal alphabet (codes 48-57 and 97-102), given the 32-byte SHA-256
digest contract. -/
theorem c8_hash_deterministic_shape (A : CryptoPrim) (hsh : Sha256Shape A)
    (x : GoStr) :
    Hash A x = Hash A x ∧
    Hash A x = Except.ok (hexEncode (A.sha256Sum x)) ∧
    (hexEncode (A.sha256Sum x)).length = 64 ∧
    ∀ c ∈ hexEncode (A.sha256Sum x),
      (48 ≤ c ∧ c ≤ 57) ∨ (97 ≤ c ∧ c ≤ 102) := by
  refine ⟨rfl, rfl, ?_, ?_⟩
  · rw [hexEncode_length, (hsh x).1]
  · exact hexEncode_class _ (hsh x).2

/-- Witness for C8 at a concrete input. -/
theorem c8_witness :
    Hash concretePrim [10, 20] =
      Except.ok (hexEncode (concretePrim.sha256Sum [10, 20])) ∧
    (hexEncode (concretePrim.sha256Sum [10, 20])).length = 64 :=
  ⟨(c8_hash_deterministic_shape concretePrim concrete_sha_shape
      [10, 20]).2.1,
   (c8_hash_deterministic_shape concretePrim concrete_sha_shape
      [10, 20]).2.2.1⟩
